import Mathlib

/-!
# Verification of `cc_nio.c` (ccommon non-blocking connection I/O)

A shallow embedding of the functions of `src/cc_nio.c` that the checked
properties are about:

* the four transfer operations `conn_recv`, `conn_recvv`, `conn_send`,
  `conn_sendv`, run against a script of operating-system results;
* `conn_reset`, `conn_borrow`, `server_listen`, `server_accept`, run against
  the results of the system calls they make and a table of open descriptors;
* `conn_get_sndbuf`, `conn_set_sndbuf`, `conn_maximize_sndbuf`, run against a
  socket whose send-buffer size is explicit state.

Logging calls have no effect on the modelled state and are left out.
`ASSERT` is a debug-build check of the caller contract and is not executed
in the model.
-/

set_option linter.unusedVariables false

namespace CcNio

/-! ## Constants taken from headers -/

/-- Constants that `cc_nio.c` takes from headers outside the translation unit
(`errno.h`, `cc_define.h`, `cc_nio.h`, the width of `size_t`). Every function
of the model takes them as a parameter. -/
structure Platform where
  EINTR : Int
  EAGAIN : Int
  EWOULDBLOCK : Int
  CC_OK : Int
  CC_ERROR : Int
  CC_EAGAIN : Int
  CONN_EOF : Nat
  SIZE_MAX : Nat

/-- A sample platform: Linux errno numbers, the ccommon status codes, a value
for `CONN_EOF` other than the state 0 that `conn_reset` sets, a 64-bit
`size_t`. Used only to evaluate the model on concrete inputs. -/
def lp64 : Platform where
  EINTR := 4
  EAGAIN := 11
  EWOULDBLOCK := 11
  CC_OK := 0
  CC_ERROR := -1
  CC_EAGAIN := -2
  CONN_EOF := 3
  SIZE_MAX := 2 ^ 64 - 1

/-! ## Connection -/

/-- The fields of `struct conn` that `cc_nio.c` reads or writes. -/
structure Conn where
  sd : Int
  recv_nbyte : Nat
  send_nbyte : Nat
  mode : Nat
  state : Nat
  flags : Nat
  err : Int
  deriving DecidableEq, Repr

/-- The C statement `x += (size_t)n` on a `size_t` counter `x` and an
`ssize_t` count `n`: unsigned arithmetic modulo `SIZE_MAX + 1`. -/
def size_add (P : Platform) (x : Nat) (n : Int) : Nat :=
  ((x : Int) + n % ((P.SIZE_MAX : Int) + 1)).toNat % (P.SIZE_MAX + 1)

/-- Source: `conn_reset`. -/
def conn_reset (conn : Conn) : Conn :=
  { conn with sd := 0, recv_nbyte := 0, send_nbyte := 0, mode := 0, state := 0,
              flags := 0, err := 0 }

/-! ## Transfer operations -/

/-- What one `read`/`readv`/`write`/`writev` call hands back: the return value
`n` and the value of `errno` after the call. -/
structure OsResult where
  n : Int
  errno : Int
  deriving DecidableEq, Repr

/-- What a transfer operation hands back: the returned `ssize_t`, the
connection after the call, and the operating-system results it did not use. -/
structure IoReturn where
  ret : Int
  conn : Conn
  rest : List OsResult
  deriving DecidableEq, Repr

/-- Source: `conn_recv`. Each iteration of `for (;;)` takes the next result of
`cc_read` from the script; `none` means the script ended while the loop was
still retrying. `nbyte` only reaches the system call and the log. -/
def conn_recv (P : Platform) (conn : Conn) (nbyte : Nat) :
    List OsResult → Option IoReturn
  | [] => none
  | r :: os =>
    if 0 < r.n then
      some ⟨r.n, { conn with recv_nbyte := size_add P conn.recv_nbyte r.n }, os⟩
    else if r.n = 0 then
      some ⟨r.n, { conn with state := P.CONN_EOF }, os⟩
    else if r.errno = P.EINTR then
      conn_recv P conn nbyte os
    else if r.errno = P.EAGAIN ∨ r.errno = P.EWOULDBLOCK then
      some ⟨P.CC_EAGAIN, conn, os⟩
    else
      some ⟨P.CC_ERROR, { conn with err := r.errno }, os⟩

/-- Source: `conn_recvv`. The script holds the results of `cc_readv`. -/
def conn_recvv (P : Platform) (conn : Conn) (nelem nbyte : Nat) :
    List OsResult → Option IoReturn
  | [] => none
  | r :: os =>
    if 0 < r.n then
      some ⟨r.n, { conn with recv_nbyte := size_add P conn.recv_nbyte r.n }, os⟩
    else if r.n = 0 then
      some ⟨0, conn, os⟩
    else if r.errno = P.EINTR then
      conn_recvv P conn nelem nbyte os
    else if r.errno = P.EAGAIN ∨ r.errno = P.EWOULDBLOCK then
      some ⟨P.CC_EAGAIN, conn, os⟩
    else
      some ⟨P.CC_ERROR, { conn with err := r.errno }, os⟩

/-- Source: `conn_send`. The script holds the results of `cc_write`. -/
def conn_send (P : Platform) (conn : Conn) (nbyte : Nat) :
    List OsResult → Option IoReturn
  | [] => none
  | r :: os =>
    if 0 < r.n then
      some ⟨r.n, { conn with send_nbyte := size_add P conn.send_nbyte r.n }, os⟩
    else if r.n = 0 then
      some ⟨0, conn, os⟩
    else if r.errno = P.EINTR then
      conn_send P conn nbyte os
    else if r.errno = P.EAGAIN ∨ r.errno = P.EWOULDBLOCK then
      some ⟨P.CC_EAGAIN, conn, os⟩
    else
      some ⟨P.CC_ERROR, { conn with err := r.errno }, os⟩

/-- Source: `conn_sendv`. The script holds the results of `cc_writev`. -/
def conn_sendv (P : Platform) (conn : Conn) (nelem nbyte : Nat) :
    List OsResult → Option IoReturn
  | [] => none
  | r :: os =>
    if 0 < r.n then
      some ⟨r.n, { conn with send_nbyte := size_add P conn.send_nbyte r.n }, os⟩
    else if r.n = 0 then
      some ⟨0, conn, os⟩
    else if r.errno = P.EINTR then
      conn_sendv P conn nelem nbyte os
    else if r.errno = P.EAGAIN ∨ r.errno = P.EWOULDBLOCK then
      some ⟨P.CC_EAGAIN, conn, os⟩
    else
      some ⟨P.CC_ERROR, { conn with err := r.errno }, os⟩

/-- A call that failed with `errno == EINTR`. -/
def interrupted (P : Platform) (r : OsResult) : Prop :=
  r.n < 0 ∧ r.errno = P.EINTR

instance (P : Platform) (r : OsResult) : Decidable (interrupted P r) := by
  unfold interrupted; infer_instance

/-- The operation `op` called once per entry of `scripts`, each call on the
connection the previous one left and against its own script of
operating-system results; gives the list of returned values and the final
connection, or `none` when some call does not return. -/
def call_each (op : Conn → List OsResult → Option IoReturn) :
    Conn → List (List OsResult) → Option (List Int × Conn)
  | conn, [] => some ([], conn)
  | conn, s :: ss =>
    match op conn s with
    | none => none
    | some r =>
      match call_each op r.conn ss with
      | none => none
      | some (rets, c) => some (r.ret :: rets, c)

/-- A successful call is described by the interrupted results that precede
the final one and by the final result; `scripts` gives, for a list of such
calls, the script of operating-system results of each call. -/
def scripts (calls : List (List OsResult × OsResult)) : List (List OsResult) :=
  calls.map (fun c => c.1 ++ [c.2])

/-- The counts that the final results of `calls` carry. -/
def counts (calls : List (List OsResult × OsResult)) : List Int :=
  calls.map (fun c => c.2.n)

/-- The four transfer operations, as functions of the connection and of the
script of operating-system results. -/
def transfer_ops (P : Platform) (nelem nbyte : Nat) :
    List (Conn → List OsResult → Option IoReturn) :=
  [fun conn => conn_recv P conn nbyte, fun conn => conn_recvv P conn nelem nbyte,
   fun conn => conn_send P conn nbyte, fun conn => conn_sendv P conn nelem nbyte]

/-- A sample connection: descriptor 5, 10 bytes received, 20 sent, state 2. -/
def conn0 : Conn := ⟨5, 10, 20, 0, 2, 0, 0⟩

/-! ## Connection establishment -/

/-- Ways an execution of the model stops without a returned value. -/
inductive Stuck where
  /-- the loop did not end within the given number of iterations -/
  | fuel
  /-- an `int` operation left the range of `int` -/
  | int_overflow
  /-- a store through a `NULL` pointer -/
  | null_deref
  deriving DecidableEq, Repr

/-- Source: `conn_set_nonblocking`; `getfl` and `setfl` are the results of the
two `fcntl` calls. -/
def conn_set_nonblocking (getfl setfl : Int) : Int :=
  if getfl < 0 then getfl else setfl

/-- Source: `conn_borrow`. `pooled` is what `FREEPOOL_BORROW` (`cc_pool.h`)
leaves in `conn`: an entity with whatever contents it had, or `NULL`. -/
def conn_borrow (pooled : Option Conn) : Option Conn :=
  match pooled with
  | none => none
  | some conn => some (conn_reset conn)

/-- The descriptor table after `close(sd)`: the descriptor is released; the
callers below only log the status of `close`. -/
def os_close (fds : List Int) (sd : Int) : List Int :=
  fds.erase sd

/-- Results of the calls `server_listen` makes, one field per call site. -/
structure ListenCalls where
  socket : Int
  reuseaddr : Int
  bind : Int
  listen : Int
  getfl : Int
  setfl : Int
  pooled : Option Conn
  close : Int
  deriving DecidableEq, Repr

/-- Source: `server_listen`. `fds` is the table of open descriptors before the
call; the result is the returned pointer (`none` is `NULL`) and the table
after the call. A successful `socket()` adds its descriptor to the table.
The address only reaches `socket` and `bind`. -/
def server_listen (P : Platform) (os : ListenCalls) (fds : List Int) :
    Option Conn × List Int :=
  let sd := os.socket
  if sd < 0 then (none, fds)
  else
    let fds := sd :: fds
    if os.reuseaddr ≠ P.CC_OK then (none, fds)
    else if os.bind < 0 then (none, fds)
    else if os.listen < 0 then (none, fds)
    else if conn_set_nonblocking os.getfl os.setfl ≠ P.CC_OK then (none, fds)
    else
      match conn_borrow os.pooled with
      | none => (none, os_close fds sd)
      | some s => (some s, fds)

/-- The assignment `c->sd = sd` through the pointer `c`. -/
def store_sd (c : Option Conn) (sd : Int) : Except Stuck (Option Conn) :=
  match c with
  | none => .error .null_deref
  | some conn => .ok (some { conn with sd := sd })

/-- Results of the calls `server_accept` makes after its `accept` loop. -/
structure AcceptCalls where
  pooled : Option Conn
  close : Int
  getfl : Int
  setfl : Int
  nodelay : Int
  deriving DecidableEq, Repr

/-- Source: `server_accept`. The script holds the results of `accept()`
(`n` the new descriptor or a negative value); `none` means the script ended
while the loop was still retrying. A successful `accept()` adds its
descriptor to the table `fds`. The result is the returned pointer (`none` is
`NULL`), or the reason why the execution stopped, and the table of open
descriptors at that point. -/
def server_accept (P : Platform) (sconn : Conn) (os : AcceptCalls) (fds : List Int) :
    List OsResult → Option (Except Stuck (Option Conn) × List Int)
  | [] => none
  | r :: rs =>
    let sd := r.n
    if sd < 0 then
      if r.errno = P.EINTR then server_accept P sconn os fds rs
      else if r.errno = P.EAGAIN ∨ r.errno = P.EWOULDBLOCK then some (.ok none, fds)
      else some (.ok none, fds)
    else
      let fds := sd :: fds
      let c := conn_borrow os.pooled
      match store_sd c sd with
      | .error e => some (.error e, fds)
      | .ok c =>
        match c with
        | none => some (.ok none, os_close fds sd)
        | some conn =>
          if conn_set_nonblocking os.getfl os.setfl < 0 then some (.ok (some conn), fds)
          else some (.ok (some conn), fds)

/-! ## Send-buffer sizing -/

/-- Modelled from the spec: the macro `MiB` of `cc_util.h` (not in the
sources); the spec gives the upper bound of the search as 256 MiB. -/
def MiB : Int := 1024 * 1024

/-- Largest value of `int`. -/
def INT_MAX : Int := 2 ^ 31 - 1

/-- Smallest value of `int`. -/
def INT_MIN : Int := -(2 ^ 31)

/-- The value of an `int` expression whose mathematical value is `v`. -/
def int_val (v : Int) : Except Stuck Int :=
  if INT_MIN ≤ v ∧ v ≤ INT_MAX then .ok v else .error .int_overflow

/-- The socket as the send-buffer functions see it: its send-buffer size. -/
structure Sock where
  sndbuf : Int
  deriving DecidableEq, Repr

/-- Source: `conn_get_sndbuf`; `status` is the result of `getsockopt`, which
stores the socket's size in `size` when it succeeds. -/
def conn_get_sndbuf (status : Int) (s : Sock) : Int :=
  if status < 0 then status else s.sndbuf

/-- Source: `conn_set_sndbuf`; `status` is the result of `setsockopt`. The
socket follows the model the properties are stated in: a successful call
(status 0) makes the send-buffer size exactly `size`, a failed one leaves it
unchanged. -/
def conn_set_sndbuf (status : Int) (s : Sock) (size : Int) : Int × Sock :=
  (status, if status = 0 then { s with sndbuf := size } else s)

/-- The variables of the loop of `conn_maximize_sndbuf`, with the socket. -/
structure Search where
  min : Int
  max : Int
  sock : Sock
  deriving DecidableEq, Repr

/-- Source: `conn_maximize_sndbuf`, one iteration of the `while` body.
`status` is the result of the `setsockopt` call of this iteration, given the
requested size. -/
def probe_step (status : Int → Int) (st : Search) : Except Stuck Search := do
  let sum ← int_val (st.min + st.max)
  let avg := Int.tdiv sum 2
  let (rc, sock) := conn_set_sndbuf (status avg) st.sock avg
  if rc ≠ 0 then
    let max ← int_val (avg - 1)
    pure { st with max := max, sock := sock }
  else
    let min ← int_val (avg + 1)
    pure { st with min := min, sock := sock }

/-- Source: `conn_maximize_sndbuf`, the `while (min <= max)` loop. `probe k v`
is the result of the `k`-th `setsockopt` call when it requests size `v`. -/
def maximize_loop (probe : Nat → Int → Int) :
    Nat → Nat → Search → Except Stuck Sock
  | 0, _, _ => .error .fuel
  | fuel + 1, k, st =>
    if st.min ≤ st.max then
      match probe_step (probe k) st with
      | .error e => .error e
      | .ok st => maximize_loop probe fuel (k + 1) st
    else .ok st.sock

/-- Source: `conn_maximize_sndbuf`. `getstatus` is the result of the
`getsockopt` call inside `conn_get_sndbuf`. -/
def conn_maximize_sndbuf (fuel : Nat) (getstatus : Int) (probe : Nat → Int → Int)
    (s : Sock) : Except Stuck Sock :=
  let min := conn_get_sndbuf getstatus s
  if min < 0 then .ok s
  else maximize_loop probe fuel 0 ⟨min, 256 * MiB, s⟩

/-- An operating system that accepts a send-buffer size exactly when it is at
most `L`. -/
def limit_probe (L : Int) : Nat → Int → Int :=
  fun _ v => if v ≤ L then 0 else -1

/-! ## Sample inputs -/

/-- A connection whose receive counter holds `SIZE_MAX` of `lp64`. -/
def conn_full : Conn := ⟨5, 2 ^ 64 - 1, 20, 0, 2, 0, 0⟩

/-- Every call of `server_listen` succeeds: `socket()` returns descriptor 3
and the pool hands out an entity. -/
def listen_ok : ListenCalls :=
  ⟨3, 0, 0, 0, 2, 0, some ⟨7, 100, 200, 1, 2, 0, 0⟩, 0⟩

/-- As `listen_ok`, but `bind` fails (address already in use). -/
def listen_bind_fails : ListenCalls :=
  { listen_ok with bind := -1 }

/-- The pool has no entity for `server_accept` (`conn_borrow` gives `NULL`). -/
def accept_no_entity : AcceptCalls :=
  ⟨none, 0, 2, 0, 0⟩

/-- A listening connection on descriptor 3. -/
def sconn0 : Conn := ⟨3, 0, 0, 0, 0, 0, 0⟩

/-! ## Theorems: transfer operations -/

theorem conn_recv_skip (P : Platform) (conn : Conn) (nbyte : Nat) (pre os : List OsResult)
    (h : ∀ o ∈ pre, interrupted P o) :
    conn_recv P conn nbyte (pre ++ os) = conn_recv P conn nbyte os := by
  induction pre with
  | nil => rfl
  | cons a pre ih =>
    have ha : interrupted P a := h a (List.mem_cons_self _ _)
    have h1 : ¬ 0 < a.n := not_lt.mpr (le_of_lt ha.1)
    have h2 : a.n ≠ 0 := ne_of_lt ha.1
    have h3 := ha.2
    simp only [List.cons_append, conn_recv, h1, h2, h3, if_true, if_false]
    exact ih (fun o ho => h o (List.mem_cons_of_mem _ ho))

theorem conn_recvv_skip (P : Platform) (conn : Conn) (nelem nbyte : Nat)
    (pre os : List OsResult) (h : ∀ o ∈ pre, interrupted P o) :
    conn_recvv P conn nelem nbyte (pre ++ os) = conn_recvv P conn nelem nbyte os := by
  induction pre with
  | nil => rfl
  | cons a pre ih =>
    have ha : interrupted P a := h a (List.mem_cons_self _ _)
    have h1 : ¬ 0 < a.n := not_lt.mpr (le_of_lt ha.1)
    have h2 : a.n ≠ 0 := ne_of_lt ha.1
    have h3 := ha.2
    simp only [List.cons_append, conn_recvv, h1, h2, h3, if_true, if_false]
    exact ih (fun o ho => h o (List.mem_cons_of_mem _ ho))

theorem conn_send_skip (P : Platform) (conn : Conn) (nbyte : Nat) (pre os : List OsResult)
    (h : ∀ o ∈ pre, interrupted P o) :
    conn_send P conn nbyte (pre ++ os) = conn_send P conn nbyte os := by
  induction pre with
  | nil => rfl
  | cons a pre ih =>
    have ha : interrupted P a := h a (List.mem_cons_self _ _)
    have h1 : ¬ 0 < a.n := not_lt.mpr (le_of_lt ha.1)
    have h2 : a.n ≠ 0 := ne_of_lt ha.1
    have h3 := ha.2
    simp only [List.cons_append, conn_send, h1, h2, h3, if_true, if_false]
    exact ih (fun o ho => h o (List.mem_cons_of_mem _ ho))

theorem conn_sendv_skip (P : Platform) (conn : Conn) (nelem nbyte : Nat)
    (pre os : List OsResult) (h : ∀ o ∈ pre, interrupted P o) :
    conn_sendv P conn nelem nbyte (pre ++ os) = conn_sendv P conn nelem nbyte os := by
  induction pre with
  | nil => rfl
  | cons a pre ih =>
    have ha : interrupted P a := h a (List.mem_cons_self _ _)
    have h1 : ¬ 0 < a.n := not_lt.mpr (le_of_lt ha.1)
    have h2 : a.n ≠ 0 := ne_of_lt ha.1
    have h3 := ha.2
    simp only [List.cons_append, conn_sendv, h1, h2, h3, if_true, if_false]
    exact ih (fun o ho => h o (List.mem_cons_of_mem _ ho))

theorem size_add_exact (P : Platform) (x : Nat) (n : Int) (hn : 0 < n)
    (hfit : (x : Int) + n ≤ P.SIZE_MAX) : size_add P x n = x + n.toNat := by
  have hmod : n % ((P.SIZE_MAX : Int) + 1) = n :=
    Int.emod_eq_of_lt (le_of_lt hn) (by omega)
  unfold size_add
  rw [hmod]
  have h1 : ((x : Int) + n).toNat = x + n.toNat := by omega
  rw [h1]
  exact Nat.mod_eq_of_lt (by omega)

theorem sum_counts_nonneg (calls : List (List OsResult × OsResult))
    (h : ∀ c ∈ calls, 0 < c.2.n) : 0 ≤ (counts calls).sum := by
  induction calls with
  | nil => simp [counts]
  | cons c cs ih =>
    have h1 := h c (List.mem_cons_self _ _)
    have h2 := ih (fun d hd => h d (List.mem_cons_of_mem _ hd))
    simp only [counts, List.map_cons, List.sum_cons] at h2 ⊢
    omega

theorem call_each_counts (P : Platform) (op : Conn → List OsResult → Option IoReturn)
    (get : Conn → Nat) (upd : Conn → Nat → Conn)
    (h_get : ∀ c v, get (upd c v) = v) (h_upd : ∀ c v w, upd (upd c v) w = upd c w)
    (h_id : ∀ c, upd c (get c) = c)
    (hop : ∀ conn pre n e, (∀ o ∈ pre, interrupted P o) → 0 < n →
      (get conn : Int) + n ≤ P.SIZE_MAX →
      op conn (pre ++ [⟨n, e⟩]) = some ⟨n, upd conn (get conn + n.toNat), []⟩) :
    ∀ (calls : List (List OsResult × OsResult)) (conn : Conn),
      (∀ c ∈ calls, (∀ o ∈ c.1, interrupted P o) ∧ 0 < c.2.n) →
      (get conn : Int) + (counts calls).sum ≤ P.SIZE_MAX →
      call_each op conn (scripts calls)
        = some (counts calls,
                upd conn (get conn + (counts calls).sum.toNat)) := by
  intro calls
  induction calls with
  | nil =>
    intro conn _ _
    simp [call_each, h_id, counts, scripts]
  | cons c cs ih =>
    intro conn hc hfit
    have hc1 := hc c (List.mem_cons_self _ _)
    have hcs : ∀ d ∈ cs, (∀ o ∈ d.1, interrupted P o) ∧ 0 < d.2.n :=
      fun d hd => hc d (List.mem_cons_of_mem _ hd)
    have hnn := sum_counts_nonneg cs (fun d hd => (hcs d hd).2)
    have hcons : counts (c :: cs) = c.2.n :: counts cs := rfl
    have hscr : scripts (c :: cs) = (c.1 ++ [c.2]) :: scripts cs := rfl
    rw [hcons, List.sum_cons] at hfit
    rw [hcons, hscr, List.sum_cons]
    have hcall := hop conn c.1 c.2.n c.2.errno hc1.1 hc1.2 (by omega)
    have hih := ih (upd conn (get conn + c.2.n.toNat)) hcs (by
      rw [h_get]
      have : ((get conn + c.2.n.toNat : Nat) : Int) = (get conn : Int) + c.2.n := by omega
      rw [this]; omega)
    have hsum : get conn + (c.2.n + (counts cs).sum).toNat
        = get conn + c.2.n.toNat + (counts cs).sum.toNat := by omega
    simp only [call_each, hcall, hih, h_get, h_upd, hsum]

/-- C2: for each of the four transfer operations, when the system call fails
(`n < 0`) with an errno other than `EINTR`: if errno is `EAGAIN` or
`EWOULDBLOCK` the operation returns `CC_EAGAIN` and the connection is
unchanged in every field; otherwise it returns `CC_ERROR`, errno is stored in
`err` and no other field changes. With distinct status codes, `CC_EAGAIN` is
returned exactly when errno is `EAGAIN` or `EWOULDBLOCK`. -/
theorem io_failure_classification (P : Platform) (nelem nbyte : Nat) (conn : Conn)
    (r : OsResult) (rest : List OsResult) (hfail : r.n < 0) (hintr : r.errno ≠ P.EINTR) :
    ∀ op ∈ transfer_ops P nelem nbyte, ∃ out, op conn (r :: rest) = some out ∧
      out.rest = rest ∧
      ((r.errno = P.EAGAIN ∨ r.errno = P.EWOULDBLOCK) →
        out.ret = P.CC_EAGAIN ∧ out.conn = conn) ∧
      (¬ (r.errno = P.EAGAIN ∨ r.errno = P.EWOULDBLOCK) →
        out.ret = P.CC_ERROR ∧ out.conn = { conn with err := r.errno }) ∧
      (P.CC_EAGAIN ≠ P.CC_ERROR →
        (out.ret = P.CC_EAGAIN ↔ (r.errno = P.EAGAIN ∨ r.errno = P.EWOULDBLOCK))) := by
  have h1 : ¬ 0 < r.n := not_lt.mpr (le_of_lt hfail)
  have h2 : r.n ≠ 0 := ne_of_lt hfail
  intro op hop
  simp only [transfer_ops, List.mem_cons, List.mem_singleton, List.not_mem_nil, or_false] at hop
  by_cases hw : r.errno = P.EAGAIN ∨ r.errno = P.EWOULDBLOCK
  · refine ⟨⟨P.CC_EAGAIN, conn, rest⟩, ?_, rfl, ?_, ?_, ?_⟩
    · rcases hop with rfl | rfl | rfl | rfl <;>
        simp only [conn_recv, conn_recvv, conn_send, conn_sendv, h1, h2, hintr, hw,
          if_true, if_false]
    · intro _; exact ⟨rfl, rfl⟩
    · intro h; exact absurd hw h
    · intro _; simp [hw]
  · refine ⟨⟨P.CC_ERROR, { conn with err := r.errno }, rest⟩, ?_, rfl, ?_, ?_, ?_⟩
    · rcases hop with rfl | rfl | rfl | rfl <;>
        simp only [conn_recv, conn_recvv, conn_send, conn_sendv, h1, h2, hintr, hw,
          if_true, if_false]
    · intro h; exact absurd h hw
    · intro _; exact ⟨rfl, rfl⟩
    · intro hcodes; simp only [hw, iff_false]; exact fun h => hcodes h.symm

/-- C2, witness: a would-block (errno 11) on a scalar send of 100 bytes on
`conn0` returns `CC_EAGAIN` and leaves the connection, `send_nbyte` and
`state` included, unchanged. -/
theorem io_failure_classification_witness :
    (-1 : Int) < 0 ∧ (11 : Int) ≠ lp64.EINTR ∧
    ∃ out, conn_send lp64 conn0 100 [⟨-1, 11⟩] = some out ∧
      out.ret = lp64.CC_EAGAIN ∧ out.conn = conn0 :=
  ⟨by decide, by decide,
    match io_failure_classification lp64 1 100 conn0 ⟨-1, 11⟩ [] (by decide) (by decide)
      (fun conn => conn_send lp64 conn 100) (by simp [transfer_ops]) with
    | ⟨out, hout, _, hwb, _, _⟩ => ⟨out, hout, hwb (Or.inl rfl)⟩⟩

/-- C3: a `conn_recv` call whose read returns 0 sets `state` to `CONN_EOF`,
returns 0, and changes no other field (`recv_nbyte`, `send_nbyte`, `sd`,
`err`, `mode`, `flags`). -/
theorem conn_recv_eof (P : Platform) (conn : Conn) (nbyte : Nat) (e : Int)
    (rest : List OsResult) :
    conn_recv P conn nbyte (⟨0, e⟩ :: rest)
      = some ⟨0, { conn with state := P.CONN_EOF }, rest⟩ := by
  simp [conn_recv]

/-- C4: for each of the four transfer operations, against a script that starts
with any number of calls interrupted by `EINTR` followed by a result `r` that
is not an interruption, the operation returns, and returns exactly what it
returns against the script that starts with `r`: same value, same connection
fields, same unused results. The returned value is the count `r.n ≥ 0` or one
of the two status codes, and the `err` field after the call is either the one
before the call or a value other than `EINTR`. -/
theorem eintr_invisible (P : Platform) (nelem nbyte : Nat) (conn : Conn)
    (pre : List OsResult) (r : OsResult) (rest : List OsResult)
    (hpre : ∀ o ∈ pre, interrupted P o) (hr : ¬ interrupted P r) :
    ∀ op ∈ transfer_ops P nelem nbyte,
      op conn (pre ++ r :: rest) = op conn (r :: rest) ∧
      ∃ out, op conn (r :: rest) = some out ∧ out.rest = rest ∧
        ((out.ret = r.n ∧ 0 ≤ r.n) ∨ out.ret = P.CC_EAGAIN ∨ out.ret = P.CC_ERROR) ∧
        (out.conn.err = conn.err ∨ out.conn.err ≠ P.EINTR) := by
  intro op hop
  simp only [transfer_ops, List.mem_cons, List.mem_singleton, List.not_mem_nil, or_false] at hop
  have hr' : r.n < 0 → r.errno ≠ P.EINTR := fun h1 h2 => hr ⟨h1, h2⟩
  rcases hop with rfl | rfl | rfl | rfl
  · refine ⟨conn_recv_skip P conn nbyte pre _ hpre, ?_⟩
    simp only [conn_recv]
    split_ifs with h1 h2 h3 h4
    · exact ⟨_, rfl, rfl, Or.inl ⟨rfl, le_of_lt h1⟩, Or.inl rfl⟩
    · exact ⟨_, rfl, rfl, Or.inl ⟨rfl, le_of_eq h2.symm⟩, Or.inl rfl⟩
    · exact absurd h3 (hr' (lt_of_le_of_ne (not_lt.mp h1) h2))
    · exact ⟨_, rfl, rfl, Or.inr (Or.inl rfl), Or.inl rfl⟩
    · exact ⟨_, rfl, rfl, Or.inr (Or.inr rfl), Or.inr h3⟩
  · refine ⟨conn_recvv_skip P conn nelem nbyte pre _ hpre, ?_⟩
    simp only [conn_recvv]
    split_ifs with h1 h2 h3 h4
    · exact ⟨_, rfl, rfl, Or.inl ⟨rfl, le_of_lt h1⟩, Or.inl rfl⟩
    · exact ⟨_, rfl, rfl, Or.inl ⟨h2.symm, le_of_eq h2.symm⟩, Or.inl rfl⟩
    · exact absurd h3 (hr' (lt_of_le_of_ne (not_lt.mp h1) h2))
    · exact ⟨_, rfl, rfl, Or.inr (Or.inl rfl), Or.inl rfl⟩
    · exact ⟨_, rfl, rfl, Or.inr (Or.inr rfl), Or.inr h3⟩
  · refine ⟨conn_send_skip P conn nbyte pre _ hpre, ?_⟩
    simp only [conn_send]
    split_ifs with h1 h2 h3 h4
    · exact ⟨_, rfl, rfl, Or.inl ⟨rfl, le_of_lt h1⟩, Or.inl rfl⟩
    · exact ⟨_, rfl, rfl, Or.inl ⟨h2.symm, le_of_eq h2.symm⟩, Or.inl rfl⟩
    · exact absurd h3 (hr' (lt_of_le_of_ne (not_lt.mp h1) h2))
    · exact ⟨_, rfl, rfl, Or.inr (Or.inl rfl), Or.inl rfl⟩
    · exact ⟨_, rfl, rfl, Or.inr (Or.inr rfl), Or.inr h3⟩
  · refine ⟨conn_sendv_skip P conn nelem nbyte pre _ hpre, ?_⟩
    simp only [conn_sendv]
    split_ifs with h1 h2 h3 h4
    · exact ⟨_, rfl, rfl, Or.inl ⟨rfl, le_of_lt h1⟩, Or.inl rfl⟩
    · exact ⟨_, rfl, rfl, Or.inl ⟨h2.symm, le_of_eq h2.symm⟩, Or.inl rfl⟩
    · exact absurd h3 (hr' (lt_of_le_of_ne (not_lt.mp h1) h2))
    · exact ⟨_, rfl, rfl, Or.inr (Or.inl rfl), Or.inl rfl⟩
    · exact ⟨_, rfl, rfl, Or.inr (Or.inr rfl), Or.inr h3⟩

/-- C4, witness: `conn_recv` on `conn0` against two interrupted reads followed
by a read of 7 bytes gives what it gives against the read of 7 bytes alone. -/
theorem eintr_invisible_witness :
    (∀ o ∈ [(⟨-1, 4⟩ : OsResult), ⟨-1, 4⟩], interrupted lp64 o) ∧
    ¬ interrupted lp64 ⟨7, 0⟩ ∧
    conn_recv lp64 conn0 100 ([⟨-1, 4⟩, ⟨-1, 4⟩] ++ ⟨7, 0⟩ :: [])
      = conn_recv lp64 conn0 100 (⟨7, 0⟩ :: []) :=
  ⟨by decide, by decide,
    (eintr_invisible lp64 1 100 conn0 [⟨-1, 4⟩, ⟨-1, 4⟩] ⟨7, 0⟩ [] (by decide) (by decide)
      (fun conn => conn_recv lp64 conn 100) (by simp [transfer_ops])).1⟩

/-- C1, as amended: for each of the four transfer operations, when the system
call, after any number of `EINTR` failures, returns `n > 0` and the counter of
that direction plus `n` does not exceed `SIZE_MAX`, the operation returns `n`,
the counter of that direction (`recv_nbyte` for the receives, `send_nbyte` for
the sends) grows by exactly `n`, and no other field changes. Over a sequence
of such calls whose counts keep the counter within `SIZE_MAX`, the calls
return the counts and the counter grows by their sum. -/
theorem io_counts_exact (P : Platform) (nelem nbyte : Nat) (conn : Conn)
    (pre : List OsResult) (n e : Int) (rest : List OsResult)
    (calls : List (List OsResult × OsResult))
    (hpre : ∀ o ∈ pre, interrupted P o) (hn : 0 < n)
    (hcalls : ∀ c ∈ calls, (∀ o ∈ c.1, interrupted P o) ∧ 0 < c.2.n) :
    ((conn.recv_nbyte : Int) + n ≤ P.SIZE_MAX →
      conn_recv P conn nbyte (pre ++ ⟨n, e⟩ :: rest)
        = some ⟨n, { conn with recv_nbyte := conn.recv_nbyte + n.toNat }, rest⟩ ∧
      conn_recvv P conn nelem nbyte (pre ++ ⟨n, e⟩ :: rest)
        = some ⟨n, { conn with recv_nbyte := conn.recv_nbyte + n.toNat }, rest⟩) ∧
    ((conn.send_nbyte : Int) + n ≤ P.SIZE_MAX →
      conn_send P conn nbyte (pre ++ ⟨n, e⟩ :: rest)
        = some ⟨n, { conn with send_nbyte := conn.send_nbyte + n.toNat }, rest⟩ ∧
      conn_sendv P conn nelem nbyte (pre ++ ⟨n, e⟩ :: rest)
        = some ⟨n, { conn with send_nbyte := conn.send_nbyte + n.toNat }, rest⟩) ∧
    ((conn.recv_nbyte : Int) + (counts calls).sum ≤ P.SIZE_MAX →
      call_each (fun c => conn_recv P c nbyte) conn (scripts calls)
        = some (counts calls,
            { conn with recv_nbyte :=
                conn.recv_nbyte + (counts calls).sum.toNat }) ∧
      call_each (fun c => conn_recvv P c nelem nbyte) conn (scripts calls)
        = some (counts calls,
            { conn with recv_nbyte :=
                conn.recv_nbyte + (counts calls).sum.toNat })) ∧
    ((conn.send_nbyte : Int) + (counts calls).sum ≤ P.SIZE_MAX →
      call_each (fun c => conn_send P c nbyte) conn (scripts calls)
        = some (counts calls,
            { conn with send_nbyte :=
                conn.send_nbyte + (counts calls).sum.toNat }) ∧
      call_each (fun c => conn_sendv P c nelem nbyte) conn (scripts calls)
        = some (counts calls,
            { conn with send_nbyte :=
                conn.send_nbyte + (counts calls).sum.toNat })) := by
  have one_recv : ∀ (conn : Conn) pre n e rest, (∀ o ∈ pre, interrupted P o) → 0 < n →
      (conn.recv_nbyte : Int) + n ≤ P.SIZE_MAX →
      conn_recv P conn nbyte (pre ++ ⟨n, e⟩ :: rest)
        = some ⟨n, { conn with recv_nbyte := conn.recv_nbyte + n.toNat }, rest⟩ := by
    intro conn pre n e rest hp h0 hfit
    rw [conn_recv_skip P conn nbyte pre _ hp]
    simp only [conn_recv, h0, if_true, size_add_exact P _ n h0 hfit]
  have one_recvv : ∀ (conn : Conn) pre n e rest, (∀ o ∈ pre, interrupted P o) → 0 < n →
      (conn.recv_nbyte : Int) + n ≤ P.SIZE_MAX →
      conn_recvv P conn nelem nbyte (pre ++ ⟨n, e⟩ :: rest)
        = some ⟨n, { conn with recv_nbyte := conn.recv_nbyte + n.toNat }, rest⟩ := by
    intro conn pre n e rest hp h0 hfit
    rw [conn_recvv_skip P conn nelem nbyte pre _ hp]
    simp only [conn_recvv, h0, if_true, size_add_exact P _ n h0 hfit]
  have one_send : ∀ (conn : Conn) pre n e rest, (∀ o ∈ pre, interrupted P o) → 0 < n →
      (conn.send_nbyte : Int) + n ≤ P.SIZE_MAX →
      conn_send P conn nbyte (pre ++ ⟨n, e⟩ :: rest)
        = some ⟨n, { conn with send_nbyte := conn.send_nbyte + n.toNat }, rest⟩ := by
    intro conn pre n e rest hp h0 hfit
    rw [conn_send_skip P conn nbyte pre _ hp]
    simp only [conn_send, h0, if_true, size_add_exact P _ n h0 hfit]
  have one_sendv : ∀ (conn : Conn) pre n e rest, (∀ o ∈ pre, interrupted P o) → 0 < n →
      (conn.send_nbyte : Int) + n ≤ P.SIZE_MAX →
      conn_sendv P conn nelem nbyte (pre ++ ⟨n, e⟩ :: rest)
        = some ⟨n, { conn with send_nbyte := conn.send_nbyte + n.toNat }, rest⟩ := by
    intro conn pre n e rest hp h0 hfit
    rw [conn_sendv_skip P conn nelem nbyte pre _ hp]
    simp only [conn_sendv, h0, if_true, size_add_exact P _ n h0 hfit]
  refine ⟨fun hfit => ⟨one_recv conn pre n e rest hpre hn hfit,
      one_recvv conn pre n e rest hpre hn hfit⟩,
    fun hfit => ⟨one_send conn pre n e rest hpre hn hfit,
      one_sendv conn pre n e rest hpre hn hfit⟩,
    fun hfit => ⟨?_, ?_⟩, fun hfit => ⟨?_, ?_⟩⟩
  · exact call_each_counts P (fun c => conn_recv P c nbyte) (fun c => c.recv_nbyte)
      (fun c v => { c with recv_nbyte := v }) (fun _ _ => rfl) (fun _ _ _ => rfl)
      (fun _ => rfl) (fun c p m x hp h0 hf => one_recv c p m x [] hp h0 hf) calls conn
      hcalls hfit
  · exact call_each_counts P (fun c => conn_recvv P c nelem nbyte) (fun c => c.recv_nbyte)
      (fun c v => { c with recv_nbyte := v }) (fun _ _ => rfl) (fun _ _ _ => rfl)
      (fun _ => rfl) (fun c p m x hp h0 hf => one_recvv c p m x [] hp h0 hf) calls conn
      hcalls hfit
  · exact call_each_counts P (fun c => conn_send P c nbyte) (fun c => c.send_nbyte)
      (fun c v => { c with send_nbyte := v }) (fun _ _ => rfl) (fun _ _ _ => rfl)
      (fun _ => rfl) (fun c p m x hp h0 hf => one_send c p m x [] hp h0 hf) calls conn
      hcalls hfit
  · exact call_each_counts P (fun c => conn_sendv P c nelem nbyte) (fun c => c.send_nbyte)
      (fun c v => { c with send_nbyte := v }) (fun _ _ => rfl) (fun _ _ _ => rfl)
      (fun _ => rfl) (fun c p m x hp h0 hf => one_sendv c p m x [] hp h0 hf) calls conn
      hcalls hfit

/-- C1, witness: on `conn0` (10 bytes received so far) a read interrupted once
and then returning 7 makes `conn_recv` return 7 with `recv_nbyte = 17`. -/
theorem io_counts_exact_witness :
    (∀ o ∈ [(⟨-1, 4⟩ : OsResult)], interrupted lp64 o) ∧ (0 : Int) < 7 ∧
    ((conn0.recv_nbyte : Int) + 7 ≤ lp64.SIZE_MAX) ∧
    conn_recv lp64 conn0 100 ([⟨-1, 4⟩] ++ ⟨7, 0⟩ :: [])
      = some ⟨7, { conn0 with recv_nbyte := 17 }, []⟩ :=
  ⟨by decide, by decide, by decide,
    ((io_counts_exact lp64 1 100 conn0 [⟨-1, 4⟩] 7 0 [] [] (by decide) (by decide)
      (by simp)).1 (by decide)).1⟩

/-- C1, counterexample: on a connection whose `recv_nbyte` is `SIZE_MAX`
(`2^64 - 1`), a read that returns 1 makes `conn_recv` return 1 and leaves
`recv_nbyte = 0`: the counter did not grow by 1. -/
theorem io_counts_wraps :
    conn_full.recv_nbyte = 2 ^ 64 - 1 ∧
    conn_recv lp64 conn_full 100 [⟨1, 0⟩]
      = some ⟨1, { conn_full with recv_nbyte := 0 }, []⟩ ∧
    (0 : Nat) ≠ conn_full.recv_nbyte + 1 := by
  refine ⟨rfl, ?_, by decide⟩
  decide

/-- C5, the code at the failing input: when the read returns 0, `conn_recvv`
returns 0 and leaves the connection as it was (state 2), whereas `conn_recv`
returns 0 and sets the state to `CONN_EOF`. -/
theorem conn_recvv_zero_keeps_state :
    conn_recvv lp64 conn0 1 100 [⟨0, 0⟩] = some ⟨0, conn0, []⟩ ∧
    conn_recv lp64 conn0 100 [⟨0, 0⟩]
      = some ⟨0, { conn0 with state := lp64.CONN_EOF }, []⟩ ∧
    conn0.state ≠ lp64.CONN_EOF := by
  decide

/-! ## Theorems: connection establishment -/

/-- C6, the code at the failing input: every step of `server_listen` succeeds
and `socket()` returns descriptor 3; the returned connection has `sd = 0`, the
value `conn_reset` gave it, and descriptor 3 is open. -/
theorem server_listen_sd_unset :
    server_listen lp64 listen_ok [0, 1, 2] = (some ⟨0, 0, 0, 0, 0, 0, 0⟩, [3, 0, 1, 2]) ∧
    listen_ok.socket = 3 := by
  decide

/-- C7, the code at the failing input: `socket()` returns descriptor 3 and
`bind` fails; `server_listen` returns `NULL` and descriptor 3 is still in the
table of open descriptors. -/
theorem server_listen_bind_failure_leaks :
    server_listen lp64 listen_bind_fails [0, 1, 2] = (none, [3, 0, 1, 2]) := by
  decide

/-- C8, the code at the failing input: `accept()` returns descriptor 4 and
`conn_borrow` gives `NULL`; `server_accept` stores through the `NULL` pointer
before it tests it, and descriptor 4 is still open at that point. -/
theorem server_accept_null_store :
    server_accept lp64 sconn0 accept_no_entity [0, 1, 2, 3] [⟨4, 0⟩]
      = some (.error .null_deref, [4, 0, 1, 2, 3]) := by
  rfl

/-! ## Theorems: send-buffer sizing -/

theorem int_val_ok (v : Int) (h1 : -2147483648 ≤ v) (h2 : v ≤ 2147483647) :
    int_val v = .ok v := by
  have h : INT_MIN ≤ v ∧ v ≤ INT_MAX := by
    constructor
    · have : INT_MIN = -2147483648 := by norm_num [INT_MIN]
      omega
    · have : INT_MAX = 2147483647 := by norm_num [INT_MAX]
      omega
  simp only [int_val, h, and_self, if_true]

theorem probe_step_eq (status : Int → Int) (st : Search)
    (h0 : 0 ≤ st.min) (h1 : st.min ≤ st.max) (h2 : st.max ≤ 256 * MiB) :
    probe_step status st = .ok
      (if status ((st.min + st.max) / 2) ≠ 0 then
        { st with max := (st.min + st.max) / 2 - 1 }
       else { st with min := (st.min + st.max) / 2 + 1, sock := ⟨(st.min + st.max) / 2⟩ }) := by
  have hB : 256 * MiB = 268435456 := by norm_num [MiB]
  rw [hB] at h2
  have hsum : int_val (st.min + st.max) = .ok (st.min + st.max) :=
    int_val_ok _ (by omega) (by omega)
  have hdiv : Int.tdiv (st.min + st.max) 2 = (st.min + st.max) / 2 :=
    Int.tdiv_eq_ediv (by omega) (by norm_num)
  have hlo : int_val ((st.min + st.max) / 2 - 1) = .ok ((st.min + st.max) / 2 - 1) :=
    int_val_ok _ (by omega) (by omega)
  have hhi : int_val ((st.min + st.max) / 2 + 1) = .ok ((st.min + st.max) / 2 + 1) :=
    int_val_ok _ (by omega) (by omega)
  unfold probe_step
  simp only [hsum, hdiv, conn_set_sndbuf, bind, Except.bind, pure, Except.pure]
  by_cases hs : status ((st.min + st.max) / 2) = 0
  · simp [hs, hhi]
  · simp [hs, hlo]

theorem maximize_loop_grows (probe : Nat → Int → Int) :
    ∀ (f k : Nat) (st : Search), 0 ≤ st.min → st.max ≤ 256 * MiB →
      st.max - st.min + 1 < 2 ^ f →
      ∃ s, maximize_loop probe (f + 1) k st = .ok s ∧
        (∀ lo, lo ≤ st.min → lo ≤ st.sock.sndbuf → lo ≤ s.sndbuf) ∧
        ((∀ j v, probe j v ≠ 0) → s = st.sock) := by
  intro f
  induction f with
  | zero =>
    intro k st h0 hB hsz
    have hexit : ¬ st.min ≤ st.max := by
      simp only [pow_zero] at hsz; omega
    exact ⟨st.sock, by simp only [maximize_loop, hexit, if_false], fun _ _ h => h, fun _ => rfl⟩
  | succ f ih =>
    intro k st h0 hB hsz
    by_cases hrun : st.min ≤ st.max
    · have hstep := probe_step_eq (probe k) st h0 hrun hB
      have hpow : (2 : Int) ^ (f + 1) = 2 * 2 ^ f := by rw [pow_succ]; ring
      rw [hpow] at hsz
      by_cases hs : probe k ((st.min + st.max) / 2) = 0
      · simp only [hs, ne_eq, not_true_eq_false, if_false] at hstep
        obtain ⟨s, hrun', hlo, hun⟩ := ih (k + 1)
          { st with min := (st.min + st.max) / 2 + 1, sock := ⟨(st.min + st.max) / 2⟩ }
          (by simp only; omega) (by simpa using hB) (by simp only; omega)
        refine ⟨s, ?_, ?_, ?_⟩
        · rw [maximize_loop]; simp only [hrun, if_true, hstep]; exact hrun'
        · intro lo h1 _
          exact hlo lo (by simp only; omega) (by simp only; omega)
        · intro hall; exact absurd hs (hall k _)
      · simp only [hs, ne_eq, not_false_eq_true, if_true] at hstep
        obtain ⟨s, hrun', hlo, hun⟩ := ih (k + 1)
          { st with max := (st.min + st.max) / 2 - 1 }
          (by simpa using h0) (by simp only; omega) (by simp only; omega)
        refine ⟨s, ?_, ?_, ?_⟩
        · rw [maximize_loop]; simp only [hrun, if_true, hstep]; exact hrun'
        · intro lo h1 h2
          exact hlo lo (by simpa using h1) (by simpa using h2)
        · intro hall; simpa using hun hall
    · exact ⟨st.sock, by rw [maximize_loop]; simp only [hrun, if_false],
        fun _ _ h => h, fun _ => rfl⟩

theorem maximize_loop_limit (L : Int) :
    ∀ (f k : Nat) (st : Search), 0 ≤ st.min → st.max ≤ 256 * MiB →
      st.max - st.min + 1 < 2 ^ f → st.min ≤ st.max + 1 → st.min - 1 ≤ L →
      min L (256 * MiB) ≤ st.max →
      (st.sock.sndbuf = st.min - 1 ∨ st.min ≤ min L (256 * MiB)) →
      maximize_loop (limit_probe L) (f + 1) k st = .ok ⟨min L (256 * MiB)⟩ := by
  intro f
  induction f with
  | zero =>
    intro k st h0 hB hsz hle hacc hrej hinv
    have hexit : ¬ st.min ≤ st.max := by
      simp only [pow_zero] at hsz; omega
    simp only [maximize_loop, hexit, if_false]
    have : st.sock.sndbuf = min L (256 * MiB) := by
      rcases hinv with h | h
      · rw [h]; rcases le_total L (256 * MiB) with hc | hc
        · rw [min_eq_left hc] at hrej ⊢; omega
        · rw [min_eq_right hc] at hrej ⊢; omega
      · omega
    cases hst : st.sock
    rw [hst] at this
    simp only at this
    rw [this]
  | succ f ih =>
    intro k st h0 hB hsz hle hacc hrej hinv
    by_cases hrun : st.min ≤ st.max
    · have hstep := probe_step_eq (limit_probe L k) st h0 hrun hB
      have hpow : (2 : Int) ^ (f + 1) = 2 * 2 ^ f := by rw [pow_succ]; ring
      rw [hpow] at hsz
      rw [maximize_loop]
      simp only [hrun, if_true, hstep]
      by_cases hs : (st.min + st.max) / 2 ≤ L
      · have hp : limit_probe L k ((st.min + st.max) / 2) = 0 := by
          simp only [limit_probe, hs, if_true]
        simp only [hp, ne_eq, not_true_eq_false, if_false]
        exact ih (k + 1) _ (by simp only; omega) (by simpa using hB) (by simp only; omega)
          (by simp only; omega) (by simp only; omega) (by simpa using hrej)
          (Or.inl (by simp only; omega))
      · have hp : limit_probe L k ((st.min + st.max) / 2) ≠ 0 := by
          simp only [limit_probe, hs, if_false]; decide
        simp only [hp, ne_eq, not_false_eq_true, if_true]
        have hmin : min L (256 * MiB) ≤ L := min_le_left _ _
        exact ih (k + 1) _ (by simpa using h0) (by simp only; omega) (by simp only; omega)
          (by simp only; omega) (by simpa using hacc) (by simp only; omega)
          (by simpa using hinv)
    · rw [maximize_loop]
      simp only [hrun, if_false]
      have : st.sock.sndbuf = min L (256 * MiB) := by
        rcases hinv with h | h
        · rw [h]; rcases le_total L (256 * MiB) with hc | hc
          · rw [min_eq_left hc] at hrej ⊢; omega
          · rw [min_eq_right hc] at hrej ⊢; omega
        · omega
      cases hst : st.sock
      rw [hst] at this
      simp only at this
      rw [this]

/-- C9: in the operating-system model where a successful `conn_set_sndbuf(v)`
makes the send-buffer size exactly `v` and a failed one leaves it unchanged,
for every initial size, every result of `getsockopt` and every pattern of
probe results, `conn_maximize_sndbuf` returns (30 loop iterations are enough)
and leaves a send-buffer size that is at least the size before the call; the
socket is unchanged when `conn_get_sndbuf` fails and when no probe succeeds. -/
theorem maximize_sndbuf_never_shrinks (g : Int) (probe : Nat → Int → Int) (s : Sock)
    (fuel : Nat) (hfuel : 30 ≤ fuel) :
    ∃ s', conn_maximize_sndbuf fuel g probe s = .ok s' ∧ s.sndbuf ≤ s'.sndbuf ∧
      (g < 0 → s' = s) ∧ ((∀ k v, probe k v ≠ 0) → s' = s) := by
  obtain ⟨f, rfl⟩ : ∃ f, fuel = f + 1 := ⟨fuel - 1, by omega⟩
  unfold conn_maximize_sndbuf
  by_cases hmin : conn_get_sndbuf g s < 0
  · exact ⟨s, by simp only [hmin, if_true], le_refl _, fun _ => rfl, fun _ => rfl⟩
  · have hg : ¬ g < 0 := by
      intro hg; apply hmin; simp only [conn_get_sndbuf, hg, if_true]
    have hget : conn_get_sndbuf g s = s.sndbuf := by
      simp only [conn_get_sndbuf, hg, if_false]
    rw [hget] at hmin
    have hB : 256 * MiB = 268435456 := by norm_num [MiB]
    have hpow : (2 : Int) ^ 29 ≤ 2 ^ f := pow_le_pow_right₀ (by norm_num) (by omega)
    obtain ⟨s', hrun, hlo, hun⟩ := maximize_loop_grows probe f 0 ⟨s.sndbuf, 256 * MiB, s⟩
      (by simp only; omega) (le_refl _) (by simp only; rw [hB]; norm_num at hpow; omega)
    refine ⟨s', ?_, hlo s.sndbuf (le_refl _) (le_refl _), fun h => absurd h hg, hun⟩
    simp only [hget, hmin, if_false]
    exact hrun

/-- C9, witness: from a send buffer of 87040 bytes, on a system that accepts
sizes up to 212992, the call returns with a send buffer of at least 87040. -/
theorem maximize_sndbuf_never_shrinks_witness :
    30 ≤ 30 ∧
    ∃ s', conn_maximize_sndbuf 30 0 (limit_probe 212992) ⟨87040⟩ = .ok s' ∧
      (87040 : Int) ≤ s'.sndbuf ∧ ((0 : Int) < 0 → s' = ⟨87040⟩) ∧
      ((∀ k v, limit_probe 212992 k v ≠ 0) → s' = ⟨87040⟩) :=
  ⟨le_refl _, maximize_sndbuf_never_shrinks 0 (limit_probe 212992) ⟨87040⟩ 30 (le_refl _)⟩

/-- C10: in the operating-system model where `conn_set_sndbuf(v)` succeeds
exactly when `v ≤ L` and then makes the send-buffer size exactly `v`, for every
limit `L` and every initial size `s0` with `0 ≤ s0 ≤ L` and `s0 ≤ 256 MiB`,
`conn_maximize_sndbuf` returns (30 loop iterations are enough, and no `int`
operation leaves the range of `int`) with the send-buffer size equal to
`min(L, 256 MiB)`; and every iteration of the loop started with
`0 ≤ min ≤ max ≤ 256 MiB` computes its values within the range of `int`,
makes `max - min` strictly smaller and keeps `0 ≤ min` and `max ≤ 256 MiB`. -/
theorem maximize_sndbuf_finds_limit (L s0 g : Int) (fuel : Nat)
    (hg : 0 ≤ g) (h0 : 0 ≤ s0) (hL : s0 ≤ L) (hB : s0 ≤ 256 * MiB) (hfuel : 30 ≤ fuel) :
    conn_maximize_sndbuf fuel g (limit_probe L) ⟨s0⟩ = .ok ⟨min L (256 * MiB)⟩ ∧
    ∀ (k : Nat) (st : Search), 0 ≤ st.min → st.min ≤ st.max → st.max ≤ 256 * MiB →
      ∃ st', probe_step (limit_probe L k) st = .ok st' ∧
        st'.max - st'.min < st.max - st.min ∧ 0 ≤ st'.min ∧ st'.max ≤ 256 * MiB := by
  constructor
  · obtain ⟨f, rfl⟩ : ∃ f, fuel = f + 1 := ⟨fuel - 1, by omega⟩
    have hg' : ¬ g < 0 := not_lt.mpr hg
    have hs0 : ¬ s0 < 0 := not_lt.mpr h0
    have hB' : 256 * MiB = 268435456 := by norm_num [MiB]
    have hpow : (2 : Int) ^ 29 ≤ 2 ^ f := pow_le_pow_right₀ (by norm_num) (by omega)
    simp only [conn_maximize_sndbuf, conn_get_sndbuf, hg', hs0, if_false]
    exact maximize_loop_limit L f 0 ⟨s0, 256 * MiB, ⟨s0⟩⟩ h0 (le_refl _)
      (by simp only; rw [hB']; norm_num at hpow; omega) (by simp only; omega)
      (by simp only; omega) (min_le_right _ _) (Or.inr (le_min hL hB))
  · intro k st hmin hrun hmax
    have hstep := probe_step_eq (limit_probe L k) st hmin hrun hmax
    refine ⟨_, hstep, ?_⟩
    split_ifs with hp
    · refine ⟨by simp only; omega, by simpa using hmin, by simp only; omega⟩
    · refine ⟨by simp only; omega, by simp only; omega, by simpa using hmax⟩

/-- C10, witness: from a send buffer of 87040 bytes, on a system that accepts
sizes up to 212992, the search ends with a send buffer of 212992 bytes. -/
theorem maximize_sndbuf_finds_limit_witness :
    (0 : Int) ≤ 0 ∧ (0 : Int) ≤ 87040 ∧ (87040 : Int) ≤ 212992 ∧
    (87040 : Int) ≤ 256 * MiB ∧ 30 ≤ 30 ∧
    conn_maximize_sndbuf 30 0 (limit_probe 212992) ⟨87040⟩
      = .ok ⟨min 212992 (256 * MiB)⟩ :=
  ⟨le_refl _, by decide, by decide, by decide, le_refl _,
    (maximize_sndbuf_finds_limit 212992 87040 0 30 (le_refl _) (by decide) (by decide)
      (by decide) (le_refl _)).1⟩

end CcNio
